import Mathlib

/-!
Verification of the jaguartest test-orchestration engine (src/jaguartest.js).

We shallowly embed the parts of the engine that the specification's claims
are about:

* the per-test task built by runSuite (lines 313-350): merged before-chain,
  testStart emission, the retry attempt loop, the after-chain, and the
  testPass/testFail emission;
* the eligibility filter testsToRun (lines 303-312) and test registration
  (it / it.skip, lines 209-234);
* the bounded-concurrency scheduler runConcurrent (lines 267-286), as a
  small-step transition system over worker states, faithful to the
  cooperative single-threaded semantics of the JavaScript event loop
  (the index++ claim and the result write are each one atomic step);
* the hook composer computeMergedHooks (lines 288-294) with its cache;
* the context merging and propagation of runSuite (lines 296-298, 352-354);
* the toEqual matcher (lines 110-114) together with a model of
  JSON.stringify on JavaScript values.

Errors and exceptions are represented by natural-number codes; hook and
test bodies are represented by their observable behaviour (which error, if
any, each invocation raises).
-/

namespace Jaguartest

/-! ## Test task model (runSuite, lines 313-350)

A task execution is recorded as an ordered log of observable entries:
hook invocations, event emissions on the test emitter, and invocations of
the test body (one entry per attempt). -/

/-- One observable entry in the execution of a single test task. -/
inductive Entry where
  | hookBefore (i : Nat)
  | evStart
  | bodyCall (attempt : Nat)
  | hookAfter (i : Nat)
  | evPass
  | evFail (e : Nat)
deriving DecidableEq, Repr

/-- A hook's behaviour: none = the hook returns normally, some e = the hook
throws error e. -/
abbrev HookBeh := Option Nat

/-- Run a chain of hooks sequentially starting at index i, stopping at the
first hook that throws, as the for-loops at lines 314-316 and 342-344 do.
Returns the log entries of the hooks that were invoked and the error of the
throwing hook, if any. -/
def runHookChain (tag : Nat → Entry) : List HookBeh → Nat → List Entry × Option Nat
  | [], _ => ([], none)
  | none :: rest, i =>
    let r := runHookChain tag rest (i + 1)
    (tag i :: r.1, r.2)
  | some e :: _, i => ([tag i], some e)

/-- The do/while retry loop of lines 320-340.  body a is the outcome of
invoking the test body when a previous attempts have failed (none =
resolves, some e = throws e).  fuel is retryLimit - attempts, so the
source's continuation condition attempts <= retryLimit is fuel > 0 at the
moment of the failure; structurally it is the remaining retry budget.
Returns the final error (null at a success, the last attempt's error at
exhaustion) and the number of body invocations made. -/
def attemptLoopAux (body : Nat → Option Nat) : Nat → Nat → Option Nat × Nat
  | fuel, attempts =>
    match body attempts with
    | none => (none, attempts + 1)
    | some e =>
      match fuel with
      | 0 => (some e, attempts + 1)
      | fuel' + 1 => attemptLoopAux body fuel' (attempts + 1)

/-- The attempt loop entered with attempts = 0 and retryLimit = retry
(line 321: test.options.retry || 0). -/
def attemptLoop (body : Nat → Option Nat) (retryLimit : Nat) : Option Nat × Nat :=
  attemptLoopAux body retryLimit 0

/-- The full record of running one test task: the ordered log, and the
error (if any) that escaped the task itself, to be captured by
runConcurrent's per-task catch. -/
structure TaskTrace where
  log : List Entry
  thrown : Option Nat
deriving DecidableEq, Repr

/-- The async task built for one eligible test (lines 313-350): run the
merged before-chain (a throw escapes the task at once), emit testStart,
run the attempt loop, run the merged after-chain (a throw escapes before
any outcome event), then emit testFail or testPass according to the final
error. -/
def runTestTask (before : List HookBeh) (body : Nat → Option Nat) (retry : Nat)
    (after : List HookBeh) : TaskTrace :=
  let b := runHookChain Entry.hookBefore before 0
  match b.2 with
  | some e => ⟨b.1, some e⟩
  | none =>
    let r := attemptLoop body retry
    let bodyEntries := (List.range r.2).map Entry.bodyCall
    let a := runHookChain Entry.hookAfter after 0
    match a.2 with
    | some e => ⟨b.1 ++ Entry.evStart :: (bodyEntries ++ a.1), some e⟩
    | none =>
      match r.1 with
      | some e => ⟨b.1 ++ Entry.evStart :: (bodyEntries ++ a.1 ++ [Entry.evFail e]), none⟩
      | none => ⟨b.1 ++ Entry.evStart :: (bodyEntries ++ a.1 ++ [Entry.evPass]), none⟩

/-! ## Test registration and the eligibility filter (lines 174-182, 209-234, 303-312) -/

/-- The per-test data relevant to registration and filtering: the Test
class of lines 174-182 stores the title and the only/skip flags taken from
the options object. -/
structure TestR where
  title : String
  only : Bool
  skip : Bool
deriving DecidableEq, Repr

/-- it(title, options, fn) pushes a new Test onto the current suite
(lines 209-220). -/
def itRegister (tests : List TestR) (t : TestR) : List TestR :=
  tests ++ [t]

/-- it.skip(title, ...) has an empty body (lines 232-234): it registers
nothing at all. -/
def itSkipRegister (tests : List TestR) (_title : String) : List TestR :=
  tests

/-- The testsToRun filter of lines 303-312: if some registered test carries
only, exactly the only-tests qualify; otherwise, if a grep pattern is
configured, the tests whose title matches qualify; otherwise every test
qualifies.  The grep regular expression is abstracted as a predicate on
titles. -/
def testsToRun (tests : List TestR) (grep : Option (String → Bool)) : List TestR :=
  tests.filter fun t =>
    if tests.any (fun t' => t'.only) then t.only
    else
      match grep with
      | some re => re t.title
      | none => true

/-- Lines 313-350 composed over a suite's filtered tests: the log produced
by the task of each test that qualifies, in registration order (the
scheduler may interleave the tasks, but each task's own log is as built
here). -/
def suiteTestLogs (tests : List TestR) (grep : Option (String → Bool))
    (before after : List HookBeh) (bodies : TestR → Nat → Option Nat)
    (retries : TestR → Nat) : List (List Entry) :=
  (testsToRun tests grep).map fun t => (runTestTask before (bodies t) (retries t) after).log

/-! ## Bounded-concurrency scheduler (runConcurrent, lines 267-286)

JavaScript is single-threaded and cooperative: a worker's synchronous
segment (the check index < tasks.length, the claim current = index++) runs
atomically, and control can change hands only at an await.  We embed
runConcurrent as a small-step transition system: a worker atomically claims
the next index and starts the task (one step), later finishes the task and
writes its result slot (another step), and retires once no indices remain.
Task behaviour is pure data: either resolve with a value or reject with an
error. -/

/-- The behaviour of one task handed to runConcurrent. -/
inductive TaskSpec where
  | ret (v : Nat)
  | thrw (e : Nat)
deriving DecidableEq, Repr

/-- The value stored in the results array for one task: the awaited value,
or (per the catch at lines 275-277) an object wrapping the error. -/
inductive Res where
  | val (v : Nat)
  | errObj (e : Nat)
deriving DecidableEq, Repr

/-- The try/catch of lines 273-277 around one task: a resolving task's
value is stored; a rejecting task's error is captured as an error object. -/
def runTask : TaskSpec → Res
  | .ret v => .val v
  | .thrw e => .errObj e

/-- The status of one worker: between claims, running a claimed index, or
finished (its while loop exited). -/
inductive WStatus where
  | idle
  | busy (current : Nat)
  | done
deriving DecidableEq, Repr

/-- The scheduler state: the shared monotonic index counter, the results
array (new Array(tasks.length), every slot initially unset), the number of
times each task has been invoked, and each worker's status. -/
structure Sched where
  index : Nat
  results : Nat → Option Res
  execs : Nat → Nat
  workers : Nat → WStatus

/-- The state runConcurrent starts from: index 0, no result slot set, no
task invoked, every worker at the top of its while loop. -/
def initSched : Sched :=
  ⟨0, fun _ => none, fun _ => 0, fun _ => WStatus.idle⟩

/-- Lines 281-283: the number of workers spawned is
min(concurrency, tasks.length) — note concurrency is
taken as given (an integer), with no clamping to 1. -/
def numWorkers (concurrency : Int) (taskCount : Nat) : Nat :=
  (min concurrency (taskCount : Int)).toNat

/-- One scheduler step, for k spawned workers over the given task list:
claim — an idle worker sees index < tasks.length, atomically takes
current = index++ and invokes tasks[current]; fin — a busy worker's task
settles and the worker writes results[current]; retire — an idle worker
sees no index left and its while loop exits. -/
inductive Step (tasks : List TaskSpec) (k : Nat) : Sched → Sched → Prop
  | claim (s : Sched) (w : Nat) (hw : w < k) (hidle : s.workers w = WStatus.idle)
      (hi : s.index < tasks.length) :
      Step tasks k s
        ⟨s.index + 1, s.results,
         Function.update s.execs s.index (s.execs s.index + 1),
         Function.update s.workers w (WStatus.busy s.index)⟩
  | fin (s : Sched) (w c : Nat) (hw : w < k) (hbusy : s.workers w = WStatus.busy c) :
      Step tasks k s
        ⟨s.index,
         Function.update s.results c (some (runTask (tasks.getD c (TaskSpec.ret 0)))),
         s.execs,
         Function.update s.workers w WStatus.idle⟩
  | retire (s : Sched) (w : Nat) (hw : w < k) (hidle : s.workers w = WStatus.idle)
      (hi : tasks.length ≤ s.index) :
      Step tasks k s
        ⟨s.index, s.results, s.execs, Function.update s.workers w WStatus.done⟩

/-- Reachability under scheduler steps (any interleaving of the workers). -/
def Reach (tasks : List TaskSpec) (k : Nat) : Sched → Sched → Prop :=
  Relation.ReflTransGen (Step tasks k)

/-- Promise.all(workers) has resolved: every spawned worker's loop has
exited.  This is the state in which runConcurrent returns results. -/
def Terminal (k : Nat) (s : Sched) : Prop :=
  ∀ w, w < k → s.workers w = WStatus.done

/-! ## Hook composer (computeMergedHooks, lines 288-294)

Hook functions are identified by labels (numbers); reference identity of a
chain is the identity of its label list. -/

/-- The slice of the Suite object (lines 159-172) that computeMergedHooks
reads and writes: the suite's own beforeEach/afterEach lists and the two
cache fields, both initialized to null by the constructor. -/
structure SuiteH where
  hooksBeforeEach : List Nat
  hooksAfterEach : List Nat
  mergedBeforeEach : Option (List Nat)
  mergedAfterEach : Option (List Nat)
deriving DecidableEq, Repr

/-- computeMergedHooks (lines 288-294): if suite.mergedBeforeEach is still
null, set it to parentBefore.concat(suite.hooks.beforeEach) and
mergedAfterEach to suite.hooks.afterEach.concat(parentAfter); then return
the two cached chains.  Returns the updated suite together with the
before/after pair. -/
def computeMergedHooks (suite : SuiteH) (parentBefore parentAfter : List Nat) :
    SuiteH × List Nat × List Nat :=
  match suite.mergedBeforeEach with
  | none =>
    let mb := parentBefore ++ suite.hooksBeforeEach
    let ma := suite.hooksAfterEach ++ parentAfter
    (⟨suite.hooksBeforeEach, suite.hooksAfterEach, some mb, some ma⟩, mb, ma)
  | some mb => (suite, mb, suite.mergedAfterEach.getD [])

/-! ## Context merging and propagation (runSuite, lines 296-298 and 352-354)

A context object is a finite map from string keys to values, represented
as an association list in which the first binding of a key is its value.
Object.assign({}, parent, own) builds a NEW object whose lookups prefer
the suite's own keys; we embed it so that lookups hit own first. -/

/-- A context object: association list, first binding wins on lookup. -/
abbrev Ctx := List (String × Nat)

/-- suite.context = Object.assign({}, parentContext, suite.context)
(line 298): a fresh object in which the suite's own keys shadow the
parent's. -/
def assignCtx (parent own : Ctx) : Ctx :=
  own ++ parent

/-- A suite tree carrying only what the context claims need: the suite's
own initial context, its hooks viewed as context mutations (each hook runs
with this bound to the suite's live context object and may update it), and
the child suites in declaration order. -/
inductive SuiteC where
  | node (own : Ctx) (hooks : List (Ctx → Ctx)) (children : List SuiteC)

mutual
/-- The contexts observed by the suites of a subtree, in visit order.  As
at lines 296-298 and 352-354: the suite's active context is the fresh
merge of the parent's context with its own; its hooks mutate that object;
each child is then run with the suite's (mutated) context as parent —
crucially each child again builds a fresh merged object, so nothing a
child does flows back into this suite's object, nor across to a later
sibling. -/
def runSuiteCtx : SuiteC → Ctx → List Ctx
  | .node own hooks children, parent =>
    let ctx := hooks.foldl (fun c h => h c) (assignCtx parent own)
    ctx :: runSuiteChildren children ctx

/-- Lines 352-354: the children are visited sequentially, each receiving
the suite's context as its parent context. -/
def runSuiteChildren : List SuiteC → Ctx → List Ctx
  | [], _ => []
  | c :: cs, ctx => runSuiteCtx c ctx ++ runSuiteChildren cs ctx
end

/-! ## toEqual and JSON.stringify (customMatchers.toEqual, lines 110-114) -/

/-- A JavaScript value as far as JSON.stringify is concerned. -/
inductive JVal where
  | jnull
  | jundef
  | jbool (b : Bool)
  | jnum (n : Int)
  | jstr (s : String)
  | jarr (elems : List JVal)
  | jobj (fields : List (String × JVal))

/-- One hexadecimal digit, lowercase. -/
def hexDigit (n : Nat) : Char :=
  if n < 10 then Char.ofNat (48 + n) else Char.ofNat (87 + n)

/-- JSON string escaping of one character, as JSON.stringify performs it:
quote and backslash get a backslash escape, the named control characters
get their short escapes, the remaining control characters get a
unicode escape, everything else is copied. -/
def escChar (c : Char) : String :=
  if c = '"' then "\\\""
  else if c = '\\' then "\\\\"
  else if c = Char.ofNat 8 then "\\b"
  else if c = Char.ofNat 9 then "\\t"
  else if c = Char.ofNat 10 then "\\n"
  else if c = Char.ofNat 12 then "\\f"
  else if c = Char.ofNat 13 then "\\r"
  else if c.toNat < 32 then
    "\\u00" ++ String.singleton (hexDigit (c.toNat / 16)) ++ String.singleton (hexDigit (c.toNat % 16))
  else String.singleton c

/-- A JSON string literal: the escaped characters between double quotes. -/
def jsonQuote (s : String) : String :=
  "\"" ++ String.join (s.toList.map escChar) ++ "\""

mutual
/-- JSON.stringify on a value.  undefined serializes to no string at all
(JSON.stringify returns undefined); inside arrays undefined becomes null;
object fields whose value is undefined are dropped; object fields appear
in insertion order. -/
def stringifyVal : JVal → Option String
  | .jundef => none
  | .jnull => some "null"
  | .jbool b => some (if b then "true" else "false")
  | .jnum n => some (toString n)
  | .jstr s => some (jsonQuote s)
  | .jarr xs => some ("[" ++ String.intercalate "," (stringifyElems xs) ++ "]")
  | .jobj fs => some ("\x7b" ++ String.intercalate "," (stringifyFields fs) ++ "\x7d")

/-- Array elements, each stringified, undefined rendered as null. -/
def stringifyElems : List JVal → List String
  | [] => []
  | x :: xs =>
    (match stringifyVal x with
     | none => "null"
     | some s => s) :: stringifyElems xs

/-- Object fields in insertion order, undefined-valued fields dropped. -/
def stringifyFields : List (String × JVal) → List String
  | [] => []
  | (key, v) :: fs =>
    match stringifyVal v with
    | none => stringifyFields fs
    | some s => (jsonQuote key ++ ":" ++ s) :: stringifyFields fs
end

/-- toEqual (lines 110-114): the matcher does not throw exactly when
JSON.stringify(received) and JSON.stringify(expected) agree (two undefined
results also compare as not-different under the source's !== test). -/
def toEqual (received expected : JVal) : Bool :=
  stringifyVal received == stringifyVal expected

/-- A two-sibling demonstration tree: under one parent, a first child suite
whose hook writes key k into its context, then a second child suite with no
hooks. -/
def sibDemo : SuiteC :=
  .node [] [] [.node [] [fun c => ("k", 1) :: c] [], .node [] [] []]

/-- The run invariant of the scheduler: the index counter never passes the
task count; a task's invocation count is 1 exactly below the counter;
slots at and above the counter are unset; a busy worker runs a claimed
index below the counter whose slot is still unset, and no two busy workers
run the same index; every set slot holds its own task's outcome; every
claimed index is either already written or being run by some worker; and a
worker retires only once the counter has exhausted the tasks. -/
structure SchedInv (tasks : List TaskSpec) (k : Nat) (s : Sched) : Prop where
  hidx : s.index ≤ tasks.length
  hexec : ∀ i, s.execs i = if i < s.index then 1 else 0
  hhigh : ∀ i, s.index ≤ i → s.results i = none
  hbusyLt : ∀ w c, w < k → s.workers w = WStatus.busy c → c < s.index
  hbusyRes : ∀ w c, w < k → s.workers w = WStatus.busy c → s.results c = none
  hbusyUniq : ∀ w w' c, w < k → w' < k → s.workers w = WStatus.busy c →
    s.workers w' = WStatus.busy c → w = w'
  hres : ∀ i, s.results i = none ∨
    s.results i = some (runTask (tasks.getD i (TaskSpec.ret 0)))
  hfull : ∀ i, i < s.index → s.results i = none →
    ∃ w, w < k ∧ s.workers w = WStatus.busy i
  hdone : ∀ w, w < k → s.workers w = WStatus.done → tasks.length ≤ s.index

/-- A two-task batch — one resolving task, one rejecting task — used to
exercise the scheduler concretely. -/
def c6Tasks : List TaskSpec := [TaskSpec.ret 5, TaskSpec.thrw 7]

/-- The initial state of the concrete two-task run. -/
def c6S0 : Sched := initSched

/-- After worker 0 claims index 0. -/
def c6S1 : Sched :=
  ⟨1, c6S0.results, Function.update c6S0.execs 0 (c6S0.execs 0 + 1),
   Function.update c6S0.workers 0 (WStatus.busy 0)⟩

/-- After worker 0 finishes task 0. -/
def c6S2 : Sched :=
  ⟨1, Function.update c6S1.results 0 (some (runTask (c6Tasks.getD 0 (TaskSpec.ret 0)))),
   c6S1.execs, Function.update c6S1.workers 0 WStatus.idle⟩

/-- After worker 0 claims index 1. -/
def c6S3 : Sched :=
  ⟨2, c6S2.results, Function.update c6S2.execs 1 (c6S2.execs 1 + 1),
   Function.update c6S2.workers 0 (WStatus.busy 1)⟩

/-- After worker 0 finishes task 1. -/
def c6S4 : Sched :=
  ⟨2, Function.update c6S3.results 1 (some (runTask (c6Tasks.getD 1 (TaskSpec.ret 0)))),
   c6S3.execs, Function.update c6S3.workers 0 WStatus.idle⟩

/-- After worker 0 retires: the terminal state of the concrete run. -/
def c6S5 : Sched :=
  ⟨2, c6S4.results, c6S4.execs, Function.update c6S4.workers 0 WStatus.done⟩

/-! ## Helper lemmas -/

/-- A chain of non-throwing hooks runs to the end: every hook is invoked
in order and no error is returned. -/
theorem runHookChain_ok (tag : Nat → Entry) (hs : List HookBeh)
    (h : ∀ x ∈ hs, x = none) (i : Nat) :
    runHookChain tag hs i = ((List.range' i hs.length).map tag, none) := by
  induction hs generalizing i with
  | nil => simp [runHookChain]
  | cons x rest ih =>
    have hx : x = none := h x (by simp)
    subst hx
    have hrest : ∀ y ∈ rest, y = none := fun y hy => h y (by simp [hy])
    simp [runHookChain, ih hrest (i + 1), List.range'_succ]

/-- A chain whose first throwing hook is preceded by non-throwing hooks
stops at the throwing hook, having invoked it and everything before it. -/
theorem runHookChain_throw (tag : Nat → Entry) (front rest : List HookBeh) (e : Nat)
    (h : ∀ x ∈ front, x = none) (i : Nat) :
    runHookChain tag (front ++ some e :: rest) i =
      ((List.range' i (front.length + 1)).map tag, some e) := by
  induction front generalizing i with
  | nil => simp [runHookChain, List.range'_succ]
  | cons x fr ih =>
    have hx : x = none := h x (by simp)
    subst hx
    have hfr : ∀ y ∈ fr, y = none := fun y hy => h y (by simp [hy])
    simp [runHookChain, ih hfr (i + 1), List.range'_succ]

/-- The attempt loop when the body fails for the first r attempts and then
succeeds, run with a retry budget covering those failures: it stops at the
first success with r + 1 invocations and no error. -/
theorem attemptLoopAux_firstPass (body : Nat → Option Nat) (r : Nat)
    (hfail : ∀ i, i < r → (body i).isSome) (hsucc : body r = none) :
    ∀ fuel attempts, attempts + fuel = r →
      attemptLoopAux body fuel attempts = (none, r + 1) := by
  intro fuel
  induction fuel with
  | zero =>
    intro attempts ha
    have : attempts = r := by omega
    subst this
    simp [attemptLoopAux, hsucc]
  | succ fuel ih =>
    intro attempts ha
    have hlt : attempts < r := by omega
    obtain ⟨e, he⟩ := Option.isSome_iff_exists.1 (hfail attempts hlt)
    have := ih (attempts + 1) (by omega)
    simp [attemptLoopAux, he, this]

/-! ## Claim theorems -/

/-- C1 (counterexample): a test task whose single before-chain hook throws
error 7 produces a log consisting of that hook invocation only — in
particular no testFail event carrying the hook's error is emitted for the
test; the error instead escapes the task. -/
theorem beforeHookThrow_noTestFail_cex :
    (runTestTask [some 7] (fun _ => none) 0 [none]).log = [Entry.hookBefore 0] ∧
    (runTestTask [some 7] (fun _ => none) 0 [none]).thrown = some 7 ∧
    Entry.evFail 7 ∉ (runTestTask [some 7] (fun _ => none) 0 [none]).log := by
  decide

/-- C1 (amended): when a hook of the merged before chain throws, the test
body is never invoked and the after chain is never run, but no testFail
event (indeed no event at all) is emitted for the test: the log holds only
the before-hook invocations up to and including the throwing hook, and the
hook's error escapes the task, to be captured as the task's error result
by runConcurrent's per-task catch. -/
theorem beforeHookThrow_aborts (front rest : List HookBeh) (e : Nat)
    (body : Nat → Option Nat) (retry : Nat) (after : List HookBeh)
    (h : ∀ x ∈ front, x = none) :
    runTestTask (front ++ some e :: rest) body retry after =
      ⟨(List.range' 0 (front.length + 1)).map Entry.hookBefore, some e⟩ := by
  simp [runTestTask, runHookChain_throw Entry.hookBefore front rest e h 0]

/-- C1 (witness): the amended theorem applied to a one-hook chain that
throws error 5. -/
theorem beforeHookThrow_aborts_w :
    runTestTask [some 5] (fun _ => none) 0 [none] =
      ⟨(List.range' 0 1).map Entry.hookBefore, some 5⟩ :=
  beforeHookThrow_aborts [] [] 5 (fun _ => none) 0 [none] (by decide)

/-- C2 (counterexample): for a test with one (succeeding) before-chain
hook, the task log places the hook invocation at position 0 and the
testStart emission at position 1 — testStart is NOT emitted before the
before-chain hooks execute. -/
theorem testStart_before_hooks_cex :
    (runTestTask [none] (fun _ => none) 0 []).log =
      [Entry.hookBefore 0, Entry.evStart, Entry.bodyCall 0, Entry.evPass] ∧
    (runTestTask [none] (fun _ => none) 0 []).log.indexOf (Entry.hookBefore 0) = 0 ∧
    (runTestTask [none] (fun _ => none) 0 []).log.indexOf Entry.evStart = 1 := by
  decide

/-- C2 (amended): the task built for an eligible test runs the merged
before chain first, then emits testStart, then runs the attempt loop (and
then the after chain and the outcome event): when no hook throws, every
before-chain hook invocation precedes the testStart emission in the log. -/
theorem taskLog_structure (before after : List HookBeh) (body : Nat → Option Nat)
    (retry : Nat) (hb : ∀ x ∈ before, x = none) (ha : ∀ x ∈ after, x = none) :
    (runTestTask before body retry after).log =
      (List.range' 0 before.length).map Entry.hookBefore
        ++ Entry.evStart ::
          ((List.range (attemptLoop body retry).2).map Entry.bodyCall
            ++ (List.range' 0 after.length).map Entry.hookAfter
            ++ [match (attemptLoop body retry).1 with
                | some e => Entry.evFail e
                | none => Entry.evPass]) := by
  have hbc := runHookChain_ok Entry.hookBefore before hb 0
  have hac := runHookChain_ok Entry.hookAfter after ha 0
  cases hr : (attemptLoop body retry).1 with
  | none => simp [runTestTask, hbc, hac, hr]
  | some e => simp [runTestTask, hbc, hac, hr]

/-- C2 (witness): the amended theorem applied to one before hook, one
after hook, and a body that succeeds at once. -/
theorem taskLog_structure_w :
    (runTestTask [none] (fun _ => none) 0 [none]).log =
      [Entry.hookBefore 0, Entry.evStart, Entry.bodyCall 0, Entry.hookAfter 0,
       Entry.evPass] :=
  (taskLog_structure [none] [none] (fun _ => none) 0 (by decide) (by decide)).trans
    (by decide)

/-- C3 (counterexample): a test registered with the skip option set is not
filtered out — it qualifies for execution, its task emits testStart, its
body is invoked, and a pass event is emitted for it. -/
theorem skipOption_still_runs_cex :
    testsToRun [⟨"t", false, true⟩] none = [⟨"t", false, true⟩] ∧
    suiteTestLogs [⟨"t", false, true⟩] none [] [] (fun _ _ => none) (fun _ => 0) =
      [[Entry.evStart, Entry.bodyCall 0, Entry.evPass]] := by
  decide

/-- C3 (amended): a test declared via it.skip is never registered at all —
so it is never executed and never emits an event — but a test registered
with a skip option is not exempt: the eligibility filter consults only the
only flags and the grep pattern, never the test's skip flag, so with no
only sibling and no grep every registered test (its skip flag included)
qualifies for execution. -/
theorem skip_amended (ts : List TestR) (title : String) (tests : List TestR)
    (h : tests.any (fun t => t.only) = false) :
    itSkipRegister ts title = ts ∧ testsToRun tests none = tests := by
  refine ⟨rfl, ?_⟩
  unfold testsToRun
  rw [h]
  simp

/-- C3 (witness): the amended theorem applied to a singleton list holding
a skip-flagged test. -/
theorem skip_amended_w :
    itSkipRegister [⟨"a", false, true⟩] "b" = [⟨"a", false, true⟩] ∧
    testsToRun [⟨"a", false, true⟩] none = [⟨"a", false, true⟩] :=
  skip_amended [⟨"a", false, true⟩] "b" [⟨"a", false, true⟩] (by decide)

/-- C5 (counterexample): in the two-sibling tree, the first child's hook
writes k into the context it observes, yet the second (later) sibling's
observed context does not contain k — the context object is not shared by
reference across the subtree, so a hook's mutation is not visible to a
later sibling suite. -/
theorem ctxShared_cex :
    runSuiteCtx sibDemo [] = [[], [("k", 1)], []] ∧
    List.lookup "k" ((runSuiteCtx sibDemo []).getD 2 [("k", 0)]) = none := by
  decide

/-- C5 (amended): a suite's active context is a fresh shallow merge in
which the suite's own keys win over the parent's; that fresh object is
what the suite's own hooks mutate, and each child receives the suite's
context only as the base of its own fresh merge: the contexts observed
inside a second child are exactly those of running it directly from the
parent's context, unaffected by anything the first child did. -/
theorem ctx_amended (parent own : Ctx) (key : String) (c : Ctx) (s1 s2 : SuiteC) :
    (List.lookup key (assignCtx parent own) =
      match List.lookup key own with
      | some v => some v
      | none => List.lookup key parent) ∧
    List.drop (runSuiteCtx s1 c).length (runSuiteChildren [s1, s2] c) =
      runSuiteCtx s2 c := by
  constructor
  · unfold assignCtx
    induction own with
    | nil => simp
    | cons p own ih =>
      obtain ⟨k', v'⟩ := p
      by_cases hk : k' = key
      · subst hk
        simp [List.lookup]
      · have hkk : (key == k') = false := beq_eq_false_iff_ne.2 (Ne.symm hk)
        simp [List.lookup, hkk, ih]
  · show List.drop (runSuiteCtx s1 c).length
      (runSuiteCtx s1 c ++ runSuiteChildren [s2] c) = runSuiteCtx s2 c
    rw [List.drop_left]
    show runSuiteCtx s2 c ++ runSuiteChildren [] c = runSuiteCtx s2 c
    simp [runSuiteChildren]

/-- C7: a test whose body fails on its first r attempts and succeeds on
attempt r + 1, run with retry budget r, is reported passed: the task log
shows exactly r + 1 body invocations followed by a testPass event, and no
testFail event occurs in it. -/
theorem retry_pass_reported (body : Nat → Option Nat) (r : Nat)
    (hfail : ∀ i, i < r → (body i).isSome) (hsucc : body r = none) :
    runTestTask [] body r [] =
      ⟨Entry.evStart :: ((List.range (r + 1)).map Entry.bodyCall ++ [Entry.evPass]),
       none⟩ := by
  have hloop : attemptLoop body r = (none, r + 1) :=
    attemptLoopAux_firstPass body r hfail hsucc r 0 (by omega)
  simp [runTestTask, runHookChain, attemptLoop] at hloop ⊢
  simp [hloop]

/-- C7 (witness): a body failing twice then succeeding, with retry budget
2, passes after exactly three invocations. -/
theorem retry_pass_reported_w :
    runTestTask [] (fun i => if i < 2 then some 9 else none) 2 [] =
      ⟨Entry.evStart :: ((List.range 3).map Entry.bodyCall ++ [Entry.evPass]),
       none⟩ :=
  retry_pass_reported (fun i => if i < 2 then some 9 else none) 2 (by decide) (by decide)

/-- C9: on a suite whose cache is still empty, the hook composer returns
the inherited before-each chain concatenated with the suite's own
beforeEach list, and the suite's own afterEach list concatenated with the
inherited after-each chain; and any later call on the resulting suite —
whatever arguments it is passed — returns the very same cached chains with
the suite unchanged. -/
theorem mergeHooks_cache (suite : SuiteH) (pb pa pb' pa' : List Nat)
    (h : suite.mergedBeforeEach = none) :
    (computeMergedHooks suite pb pa).2.1 = pb ++ suite.hooksBeforeEach ∧
    (computeMergedHooks suite pb pa).2.2 = suite.hooksAfterEach ++ pa ∧
    computeMergedHooks (computeMergedHooks suite pb pa).1 pb' pa' =
      ((computeMergedHooks suite pb pa).1, pb ++ suite.hooksBeforeEach,
        suite.hooksAfterEach ++ pa) := by
  obtain ⟨b, a, mb, ma⟩ := suite
  simp only at h
  subst h
  simp [computeMergedHooks]

/-- C9 (witness): the theorem applied to a fresh suite with one hook of
each kind, with different arguments passed to the second call. -/
theorem mergeHooks_cache_w :
    (computeMergedHooks ⟨[1], [2], none, none⟩ [0] [3]).2.1 = [0] ++ [1] ∧
    (computeMergedHooks ⟨[1], [2], none, none⟩ [0] [3]).2.2 = [2] ++ [3] ∧
    computeMergedHooks (computeMergedHooks ⟨[1], [2], none, none⟩ [0] [3]).1 [9] [8] =
      ((computeMergedHooks ⟨[1], [2], none, none⟩ [0] [3]).1, [0] ++ [1], [2] ++ [3]) :=
  mergeHooks_cache ⟨[1], [2], none, none⟩ [0] [3] [9] [8] rfl

/-- C10: toEqual succeeds exactly when the JSON serializations agree as
strings; under that notion of equality an object with the same keys
inserted in the other order compares unequal, and a field holding
undefined is ignored. -/
theorem toEqual_serialization :
    (∀ a b : JVal, toEqual a b = true ↔ stringifyVal a = stringifyVal b) ∧
    toEqual (.jobj [("a", .jnum 1), ("b", .jnum 2)])
        (.jobj [("b", .jnum 2), ("a", .jnum 1)]) = false ∧
    toEqual (.jobj [("a", .jnum 1), ("b", .jundef)]) (.jobj [("a", .jnum 1)]) = true := by
  refine ⟨fun a b => ?_, by decide, by decide⟩
  simp [toEqual]

/-- The scheduler invariant holds in the initial state. -/
theorem schedInv_init (tasks : List TaskSpec) (k : Nat) : SchedInv tasks k initSched := by
  refine ⟨?_, ?_, ?_, ?_, ?_, ?_, ?_, ?_, ?_⟩ <;> intros <;> simp_all [initSched]

/-- Every scheduler step preserves the invariant. -/
theorem schedInv_step (tasks : List TaskSpec) (k : Nat) (s s' : Sched)
    (inv : SchedInv tasks k s) (hstep : Step tasks k s s') : SchedInv tasks k s' := by
  obtain ⟨hidx, hexec, hhigh, hbusyLt, hbusyRes, hbusyUniq, hres, hfull, hdone⟩ := inv
  cases hstep with
  | claim w hw hidle hi =>
    refine ⟨?_, ?_, ?_, ?_, ?_, ?_, ?_, ?_, ?_⟩ <;> dsimp only
    · omega
    · intro i
      rw [Function.update_apply]
      by_cases h : i = s.index
      · subst h
        rw [if_pos rfl, hexec]
        split_ifs <;> omega
      · rw [if_neg h, hexec]
        split_ifs <;> omega
    · intro i h
      exact hhigh i (by omega)
    · intro w' c hw' hb
      rw [Function.update_apply] at hb
      by_cases hww : w' = w
      · rw [if_pos hww] at hb
        injection hb with hinj
        omega
      · rw [if_neg hww] at hb
        exact Nat.lt_succ_of_lt (hbusyLt w' c hw' hb)
    · intro w' c hw' hb
      rw [Function.update_apply] at hb
      by_cases hww : w' = w
      · rw [if_pos hww] at hb
        injection hb with hinj
        exact hinj ▸ hhigh s.index (le_refl _)
      · rw [if_neg hww] at hb
        exact hbusyRes w' c hw' hb
    · intro w1 w2 c hw1 hw2 h1 h2
      rw [Function.update_apply] at h1 h2
      by_cases e1 : w1 = w
      · by_cases e2 : w2 = w
        · rw [e1, e2]
        · rw [if_pos e1] at h1
          rw [if_neg e2] at h2
          injection h1 with i1
          have := hbusyLt w2 c hw2 h2
          omega
      · by_cases e2 : w2 = w
        · rw [if_neg e1] at h1
          rw [if_pos e2] at h2
          injection h2 with i2
          have := hbusyLt w1 c hw1 h1
          omega
        · rw [if_neg e1] at h1
          rw [if_neg e2] at h2
          exact hbusyUniq w1 w2 c hw1 hw2 h1 h2
    · exact hres
    · intro i hi hn
      by_cases h : i = s.index
      · refine ⟨w, hw, ?_⟩
        rw [Function.update_same, h]
      · obtain ⟨w0, hw0, hbw0⟩ := hfull i (by omega) hn
        have hww0 : w0 ≠ w := by
          intro he
          subst he
          rw [hidle] at hbw0
          simp at hbw0
        refine ⟨w0, hw0, ?_⟩
        rw [Function.update_apply, if_neg hww0]
        exact hbw0
    · intro w' hw' hd
      rw [Function.update_apply] at hd
      by_cases hww : w' = w
      · rw [if_pos hww] at hd
        simp at hd
      · rw [if_neg hww] at hd
        exact le_trans (hdone w' hw' hd) (by omega)
  | fin w c hw hbusy =>
    have hc : c < s.index := hbusyLt w c hw hbusy
    refine ⟨?_, ?_, ?_, ?_, ?_, ?_, ?_, ?_, ?_⟩ <;> dsimp only
    · exact hidx
    · exact hexec
    · intro i hi
      rw [Function.update_apply, if_neg (by omega)]
      exact hhigh i hi
    · intro w' c' hw' hb
      rw [Function.update_apply] at hb
      by_cases hww : w' = w
      · rw [if_pos hww] at hb
        simp at hb
      · rw [if_neg hww] at hb
        exact hbusyLt w' c' hw' hb
    · intro w' c' hw' hb
      rw [Function.update_apply] at hb
      by_cases hww : w' = w
      · rw [if_pos hww] at hb
        simp at hb
      · rw [if_neg hww] at hb
        have hcc : c' ≠ c := by
          intro he
          exact hww (hbusyUniq w' w c hw' hw (he ▸ hb) hbusy)
        rw [Function.update_apply, if_neg hcc]
        exact hbusyRes w' c' hw' hb
    · intro w1 w2 c' hw1 hw2 h1 h2
      rw [Function.update_apply] at h1 h2
      by_cases e1 : w1 = w
      · rw [if_pos e1] at h1
        simp at h1
      · by_cases e2 : w2 = w
        · rw [if_pos e2] at h2
          simp at h2
        · rw [if_neg e1] at h1
          rw [if_neg e2] at h2
          exact hbusyUniq w1 w2 c' hw1 hw2 h1 h2
    · intro i
      by_cases hic : i = c
      · subst hic
        right
        rw [Function.update_same]
      · rw [Function.update_apply, if_neg hic]
        exact hres i
    · intro i hi hn
      rw [Function.update_apply] at hn
      by_cases hic : i = c
      · rw [if_pos hic] at hn
        simp at hn
      · rw [if_neg hic] at hn
        obtain ⟨w0, hw0, hb0⟩ := hfull i hi hn
        have hww0 : w0 ≠ w := by
          intro he
          subst he
          rw [hbusy] at hb0
          injection hb0 with hcc
          exact hic hcc.symm
        refine ⟨w0, hw0, ?_⟩
        rw [Function.update_apply, if_neg hww0]
        exact hb0
    · intro w' hw' hd
      rw [Function.update_apply] at hd
      by_cases hww : w' = w
      · rw [if_pos hww] at hd
        simp at hd
      · rw [if_neg hww] at hd
        exact hdone w' hw' hd
  | retire w hw hidle hi =>
    refine ⟨?_, ?_, ?_, ?_, ?_, ?_, ?_, ?_, ?_⟩ <;> dsimp only
    · exact hidx
    · exact hexec
    · exact hhigh
    · intro w' c hw' hb
      rw [Function.update_apply] at hb
      by_cases hww : w' = w
      · rw [if_pos hww] at hb
        simp at hb
      · rw [if_neg hww] at hb
        exact hbusyLt w' c hw' hb
    · intro w' c hw' hb
      rw [Function.update_apply] at hb
      by_cases hww : w' = w
      · rw [if_pos hww] at hb
        simp at hb
      · rw [if_neg hww] at hb
        exact hbusyRes w' c hw' hb
    · intro w1 w2 c hw1 hw2 h1 h2
      rw [Function.update_apply] at h1 h2
      by_cases e1 : w1 = w
      · rw [if_pos e1] at h1
        simp at h1
      · by_cases e2 : w2 = w
        · rw [if_pos e2] at h2
          simp at h2
        · rw [if_neg e1] at h1
          rw [if_neg e2] at h2
          exact hbusyUniq w1 w2 c hw1 hw2 h1 h2
    · exact hres
    · intro i hii hn
      obtain ⟨w0, hw0, hb0⟩ := hfull i hii hn
      have hww0 : w0 ≠ w := by
        intro he
        subst he
        rw [hidle] at hb0
        simp at hb0
      refine ⟨w0, hw0, ?_⟩
      rw [Function.update_apply, if_neg hww0]
      exact hb0
    · intro w' hw' hd
      exact hi

/-- The scheduler invariant holds in every reachable state. -/
theorem schedInv_reach (tasks : List TaskSpec) (k : Nat) (s : Sched)
    (h : Reach tasks k initSched s) : SchedInv tasks k s := by
  induction h with
  | refl => exact schedInv_init tasks k
  | tail h1 h2 ih => exact schedInv_step tasks k _ _ ih h2

/-- With zero spawned workers no step is possible: the initial state is
the only reachable state. -/
theorem reach_zero_workers (tasks : List TaskSpec) (s : Sched)
    (h : Reach tasks 0 initSched s) : s = initSched := by
  induction h with
  | refl => rfl
  | tail h1 h2 ih => cases h2 <;> omega

/-- C6: for a concurrency limit of at least 1 and any task batch, every
state the scheduler can resolve in (terminal state reachable under any
worker interleaving) has each in-range slot holding exactly its own task's
outcome — a rejecting task's error captured in place — with each task
invoked exactly once, and every out-of-range slot unset. -/
theorem runConcurrent_correct (tasks : List TaskSpec) (c : Int) (hc : 1 ≤ c)
    (s : Sched) (hreach : Reach tasks (numWorkers c tasks.length) initSched s)
    (hterm : Terminal (numWorkers c tasks.length) s) :
    (∀ i, i < tasks.length →
      s.results i = some (runTask (tasks.getD i (TaskSpec.ret 0))) ∧ s.execs i = 1) ∧
    (∀ i, tasks.length ≤ i → s.results i = none) := by
  have inv := schedInv_reach tasks _ s hreach
  constructor
  · intro i hi
    have hn : 1 ≤ tasks.length := by omega
    have hk : 0 < numWorkers c tasks.length := by
      unfold numWorkers
      have h1 : (1 : Int) ≤ (tasks.length : Int) := by exact_mod_cast hn
      rcases le_total c (tasks.length : Int) with h | h
      · rw [min_eq_left h]
        omega
      · rw [min_eq_right h]
        omega
    have hd : tasks.length ≤ s.index := inv.hdone 0 hk (hterm 0 hk)
    rcases inv.hres i with hnone | hsome
    · obtain ⟨w0, hw0, hb0⟩ := inv.hfull i (by omega) hnone
      rw [hterm w0 hw0] at hb0
      simp at hb0
    · refine ⟨hsome, ?_⟩
      rw [inv.hexec, if_pos (by omega)]
  · intro i hi
    exact inv.hhigh i (le_trans inv.hidx hi)

/-- C6 (witness): the theorem applied to the concrete two-task batch run
with limit 1 through the explicit claim/finish/claim/finish/retire
schedule: the resolving task's value lands in slot 0, the rejecting task's
error object in slot 1, each task invoked once. -/
theorem runConcurrent_correct_w :
    (c6S5.results 0 = some (Res.val 5) ∧ c6S5.execs 0 = 1) ∧
    (c6S5.results 1 = some (Res.errObj 7) ∧ c6S5.execs 1 = 1) := by
  have e : numWorkers 1 c6Tasks.length = 1 := by decide
  have hreach : Reach c6Tasks (numWorkers 1 c6Tasks.length) initSched c6S5 := by
    rw [e]
    exact Relation.ReflTransGen.head
      (Step.claim c6S0 0 (by decide) (by decide) (by decide))
      (Relation.ReflTransGen.head (Step.fin c6S1 0 0 (by decide) (by decide))
        (Relation.ReflTransGen.head (Step.claim c6S2 0 (by decide) (by decide) (by decide))
          (Relation.ReflTransGen.head (Step.fin c6S3 0 1 (by decide) (by decide))
            (Relation.ReflTransGen.head (Step.retire c6S4 0 (by decide) (by decide) (by decide))
              Relation.ReflTransGen.refl))))
  have hterm : Terminal (numWorkers 1 c6Tasks.length) c6S5 := by
    rw [e]
    intro w hw
    have hw0 : w = 0 := by omega
    subst hw0
    decide
  have h := runConcurrent_correct c6Tasks 1 (by decide) c6S5 hreach hterm
  exact ⟨h.1 0 (by decide), h.1 1 (by decide)⟩

/-- C4 (counterexample): with limit 0 and a single task, the scheduler
spawns min(0, 1) = 0 workers, so the state it starts in already satisfies
the resolution condition (Promise.all over no workers), yet the task was
never invoked and its result slot never written — the batch resolves
without making progress, not behaving as if the limit were 1. -/
theorem zeroLimit_cex :
    numWorkers 0 [TaskSpec.ret 5].length = 0 ∧
    Terminal (numWorkers 0 [TaskSpec.ret 5].length) initSched ∧
    initSched.results 0 = none ∧ initSched.execs 0 = 0 := by
  refine ⟨by decide, ?_, rfl, rfl⟩
  intro w hw
  rw [(by decide : numWorkers 0 [TaskSpec.ret 5].length = 0)] at hw
  omega

/-- C4 (amended): a limit of at most 0 is NOT treated as 1: zero workers
are spawned, no scheduler step is possible, the run resolves at once in
the initial state, and no task is ever executed nor any result slot
written. -/
theorem zeroLimit_noProgress (tasks : List TaskSpec) (c : Int) (i : Nat) (hc : c ≤ 0)
    (s : Sched) (hreach : Reach tasks (numWorkers c tasks.length) initSched s) :
    numWorkers c tasks.length = 0 ∧ s = initSched ∧
    Terminal (numWorkers c tasks.length) s ∧ s.results i = none ∧ s.execs i = 0 := by
  have hk : numWorkers c tasks.length = 0 := by
    unfold numWorkers
    have hmin : min c (tasks.length : Int) ≤ 0 := le_trans (min_le_left _ _) hc
    omega
  rw [hk] at hreach
  have hs := reach_zero_workers tasks s hreach
  subst hs
  refine ⟨hk, rfl, ?_, rfl, rfl⟩
  intro w hw
  rw [hk] at hw
  omega

/-- C4 (witness): the amended theorem applied to a single-task batch with
limit 0 at the (only reachable, already terminal) initial state. -/
theorem zeroLimit_noProgress_w :
    numWorkers 0 [TaskSpec.ret 5].length = 0 ∧ initSched = initSched ∧
    Terminal (numWorkers 0 [TaskSpec.ret 5].length) initSched ∧
    initSched.results 0 = none ∧ initSched.execs 0 = 0 :=
  zeroLimit_noProgress [TaskSpec.ret 5] 0 0 (by decide) initSched
    Relation.ReflTransGen.refl

end Jaguartest
